import Mathlib

/-!
Verification of the query-result caching layer of the `nodeapi` repository
(`src/db/cache.py`), shallowly embedded in Lean 4.

Modelling conventions:
* Python JSON-serializable parameter payloads are modelled by `JValue`
  (numbers restricted to integers; no claim depends on float formatting).
* A Python object that may be `None` is modelled as `Option _`, with
  `Option.none` standing for Python `None`.
* `time.time()` is modelled by an explicit `now : Nat` argument threaded
  through each operation; the module-level dict `cache` is modelled by an
  explicit association list in insertion order (Python 3.7+ dict order),
  threaded through and returned by each operation.
* `hashlib.md5(...).hexdigest()` is external library code, modelled as an
  abstract function `md5 : String → String` supplied as a parameter.
-/

namespace DbCache

/-- JSON-like values: the shapes `json.dumps` accepts as query parameters. -/
inductive JValue : Type where
  | null : JValue
  | bool : Bool → JValue
  | num : Int → JValue
  | str : String → JValue
  | arr : List JValue → JValue
  | obj : List (String × JValue) → JValue

/-- One hexadecimal digit, lower case, as produced by Python string escapes. -/
def hexDigit (n : Nat) : Char :=
  if n < 10 then Char.ofNat (48 + n) else Char.ofNat (87 + n)

/-- A `\uXXXX` escape for one UTF-16 code unit. -/
def uEsc (n : Nat) : String :=
  "\\u" ++ String.mk [hexDigit (n / 4096 % 16), hexDigit (n / 256 % 16),
    hexDigit (n / 16 % 16), hexDigit (n % 16)]

/-- `json.dumps` escaping of a single character (`ensure_ascii=True` default:
everything outside the printable ASCII range 0x20–0x7e is escaped). -/
def escChar (c : Char) : String :=
  if c = '"' then "\\\""
  else if c = '\\' then "\\\\"
  else if c = '\n' then "\\n"
  else if c = '\t' then "\\t"
  else if c = '\r' then "\\r"
  else if c.toNat = 8 then "\\b"
  else if c.toNat = 12 then "\\f"
  else if c.toNat < 32 then uEsc c.toNat
  else if c.toNat < 127 then String.singleton c
  else if c.toNat < 65536 then uEsc c.toNat
  else uEsc (55296 + (c.toNat - 65536) / 1024) ++ uEsc (56320 + (c.toNat - 65536) % 1024)

/-- `json.dumps` serialization of a string literal. -/
def jstr (s : String) : String :=
  "\"" ++ String.join (s.data.map escChar) ++ "\""

/-- Comparison used by `sort_keys=True`: objects keys are sorted by the
string order. -/
def fieldLe (a b : String × JValue) : Bool := a.1 ≤ b.1

/-- Sorting of an object's fields by key, as `json.dumps(_, sort_keys=True)`
does at every object node. -/
def sortFields (l : List (String × JValue)) : List (String × JValue) :=
  l.mergeSort fieldLe

/-- The default `json.dumps` item separator. -/
def joinComma (l : List String) : String := String.intercalate ", " l

/-- `json.dumps(v, sort_keys=True)`: canonical serialization with object
keys sorted at every level. -/
def dumps : JValue → String
  | .null => "null"
  | .bool b => cond b "true" "false"
  | .num n => toString n
  | .str s => jstr s
  | .arr l => "[" ++ joinComma (l.attach.map (fun ⟨v, _⟩ => dumps v)) ++ "]"
  | .obj l => "\x7b" ++
      joinComma ((sortFields l).attach.map
        (fun ⟨kv, _⟩ => jstr kv.1 ++ ": " ++ dumps kv.2)) ++ "\x7d"
termination_by v => sizeOf v
decreasing_by
  all_goals simp_wf
  · rename_i hv
    have h1 := List.sizeOf_lt_of_mem hv
    omega
  · rename_i hkv
    have hmem : kv ∈ l := (List.mergeSort_perm l fieldLe).mem_iff.mp hkv
    have h1 := List.sizeOf_lt_of_mem hmem
    have h2 : sizeOf kv = 1 + sizeOf kv.1 + sizeOf kv.2 := by
      obtain ⟨a, b⟩ := kv
      simp
    omega

/-- Python truthiness (`if params:`) restricted to JSON-shaped values:
`None`, `False`, `0`, `""`, `[]` and `{}` are falsy. -/
def jtruthy : JValue → Bool
  | .null => false
  | .bool b => b
  | .num n => n != 0
  | .str s => s != ""
  | .arr l => !l.isEmpty
  | .obj l => !l.isEmpty

/-- `params_str = json.dumps(params, sort_keys=True) if params else "None"`
from `cache_key` in `src/db/cache.py`.  `params : Option JValue` with `none`
standing for Python `None`. -/
def params_str (params : Option JValue) : String :=
  match params with
  | some p => if jtruthy p then dumps p else "None"
  | none => "None"

/-- `cache_key(query, params)` from `src/db/cache.py`:
`md5(f"{query}:{params_str}".encode()).hexdigest()`, with the md5 digest
abstracted as a function parameter. -/
def cache_key (md5 : String → String) (query : String) (params : Option JValue) :
    String :=
  md5 (query ++ ":" ++ params_str params)

/-- One value of the module-level `cache` dict in `src/db/cache.py`:
`{'data': ..., 'expires_at': ..., 'created_at': ...}`.  `data` is
`Option β` because a cached payload may itself be Python `None`. -/
structure CacheEntry (β : Type) where
  data : Option β
  expires_at : Nat
  created_at : Nat
deriving DecidableEq, Repr

/-- The module-level `cache` dict, as an association list in insertion
order (Python 3.7+ dict iteration order). -/
abbrev Store (β : Type) : Type := List (String × CacheEntry β)

/-- `MAX_CACHE_SIZE = 1000` from `src/db/cache.py`. -/
def MAX_CACHE_SIZE : Nat := 1000

/-- `DEFAULT_TTL = 60` from `src/db/cache.py`. -/
def DEFAULT_TTL : Nat := 60

/-- `int(MAX_CACHE_SIZE * 0.1)`: the number of items removed by one capacity
cleanup.  For the source constant 1000, `int(1000 * 0.1) = 100 = 1000 / 10`
exactly (truncating division). -/
def CLEAN_COUNT : Nat := MAX_CACHE_SIZE / 10

/-- `cache[key] = entry` on a Python dict: replace in place if the key is
bound, otherwise append at the end of the iteration order. -/
def dictSet (store : Store β) (key : String) (e : CacheEntry β) : Store β :=
  match store with
  | [] => [(key, e)]
  | p :: rest => if p.1 = key then (key, e) :: rest else p :: dictSet rest key e

/-- `get_from_cache(key)` from `src/db/cache.py`, with the global dict and
the clock made explicit.  Returns the Python return value (`data` on a live
hit, `None` otherwise — a live hit whose stored `data` is itself `None`
returns `None` too, exactly as in Python) together with the dict after the
call (an expired entry is deleted). -/
def get_from_cache (now : Nat) (store : Store β) (key : String) :
    Option β × Store β :=
  match store.find? (fun p => p.1 == key) with
  | some (_, e) =>
      if now < e.expires_at then (e.data, store)
      else (none, store.eraseP (fun p => p.1 == key))
  | none => (none, store)

/-- `sorted(cache.items(), key=lambda x: x[1]['expires_at'])`: a stable sort
of the dict items ascending by expiry. -/
def sortByExpiry (store : Store β) : Store β :=
  store.mergeSort (fun a b => a.2.expires_at ≤ b.2.expires_at)

/-- `items_to_remove`: the first `int(MAX_CACHE_SIZE * 0.1)` items of the
expiry-sorted dict. -/
def itemsToRemove (store : Store β) : Store β :=
  (sortByExpiry store).take CLEAN_COUNT

/-- `for k, _ in items_to_remove: del cache[k]`: remove every binding whose
key belongs to `items_to_remove`. -/
def evictOld (store : Store β) : Store β :=
  store.filter (fun p => decide (p.1 ∉ (itemsToRemove store).map Prod.fst))

/-- `set_in_cache(key, data, ttl=DEFAULT_TTL)` from `src/db/cache.py`: if
the dict holds at least `MAX_CACHE_SIZE` items, first remove the
oldest-expiring 10%; then bind `key` to a fresh entry expiring at
`now + ttl`.  Returns Python's `True` together with the new dict. -/
def set_in_cache (now : Nat) (store : Store β) (key : String) (data : Option β)
    (ttl : Nat) : Bool × Store β :=
  let store1 := if MAX_CACHE_SIZE ≤ store.length then evictOld store else store
  (true, dictSet store1 key ⟨data, now + ttl, now⟩)

/-- The wrapper produced by the `cached_query(ttl)` decorator in
`src/db/cache.py`, applied to an underlying query function `func`.
Following the design note of the spec, the decorator is flattened: `ttl`
(the decoration-time argument, `DEFAULT_TTL` when not overridden) and
`func` are explicit parameters.  `func` is fallible (`Except ε`); its
result payload is `Option β` (`none` = Python `None`).  The pair returned
is (call outcome, dict state after the call). -/
def cached_query (md5 : String → String) (ttl : Nat)
    (func : String → Option JValue → Except ε (Option β))
    (now : Nat) (query : String) (params : Option JValue) (bypass_cache : Bool)
    (store : Store β) : Except ε (Option β) × Store β :=
  if bypass_cache then (func query params, store)
  else
    let key := cache_key md5 query params
    match get_from_cache now store key with
    | (some v, store1) => (Except.ok (some v), store1)
    | (none, store1) =>
        match func query params with
        | Except.error e => (Except.error e, store1)
        | Except.ok result =>
            (Except.ok result, (set_in_cache now store1 key result ttl).2)

/-- `clear_cache()` from `src/db/cache.py`. -/
def clear_cache (_store : Store β) : Store β := []

/-! ### Basic lemmas about the embedded operations -/

theorem string_append_cancel_left {q s t : String} (h : q ++ s = q ++ t) :
    s = t := by
  have hd := congrArg String.data h
  simp only [String.data_append] at hd
  exact String.ext (List.append_cancel_left hd)

theorem find?_dictSet (s : Store β) (k : String) (e : CacheEntry β) :
    (dictSet s k e).find? (fun p => p.1 == k) = some (k, e) := by
  induction s with
  | nil => simp [dictSet]
  | cons p rest ih =>
      by_cases h : p.1 = k
      · simp [dictSet, h]
      · simp only [dictSet, if_neg h]
        rw [List.find?_cons_of_neg _ (by simpa using h)]
        exact ih

theorem dictSet_length_le (s : Store β) (k : String) (e : CacheEntry β) :
    (dictSet s k e).length ≤ s.length + 1 := by
  induction s with
  | nil => simp [dictSet]
  | cons p rest ih =>
      by_cases h : p.1 = k
      · simp [dictSet, h]
      · simp only [dictSet, if_neg h, List.length_cons]
        omega

theorem mem_keys_dictSet {s : Store β} {k a : String} {e : CacheEntry β}
    (h : a ∈ (dictSet s k e).map Prod.fst) : a ∈ s.map Prod.fst ∨ a = k := by
  induction s with
  | nil => simpa [dictSet] using h
  | cons p rest ih =>
      by_cases hp : p.1 = k
      · simp only [dictSet, if_pos hp, List.map_cons, List.mem_cons] at h ⊢
        rcases h with h | h
        · exact Or.inr h
        · exact Or.inl (Or.inr h)
      · simp only [dictSet, if_neg hp, List.map_cons, List.mem_cons] at h ⊢
        rcases h with h | h
        · exact Or.inl (Or.inl h)
        · rcases ih h with h' | h'
          · exact Or.inl (Or.inr h')
          · exact Or.inr h'

theorem dictSet_nodup_keys {s : Store β} (k : String) (e : CacheEntry β)
    (hnd : (s.map Prod.fst).Nodup) : ((dictSet s k e).map Prod.fst).Nodup := by
  induction s with
  | nil => simp [dictSet]
  | cons p rest ih =>
      simp only [List.map_cons, List.nodup_cons] at hnd
      by_cases hp : p.1 = k
      · simp only [dictSet, if_pos hp, List.map_cons, List.nodup_cons]
        exact ⟨hp ▸ hnd.1, hnd.2⟩
      · simp only [dictSet, if_neg hp, List.map_cons, List.nodup_cons]
        refine ⟨fun hmem => ?_, ih hnd.2⟩
        rcases mem_keys_dictSet hmem with h' | h'
        · exact hnd.1 h'
        · exact hp h'

theorem find?_eraseP_key_none (s : Store β) (k : String)
    (hnd : (s.map Prod.fst).Nodup) :
    (s.eraseP (fun p => p.1 == k)).find? (fun p => p.1 == k) = none := by
  induction s with
  | nil => simp
  | cons p rest ih =>
      simp only [List.map_cons, List.nodup_cons] at hnd
      by_cases hp : p.1 = k
      · rw [List.eraseP_cons_of_pos (by simpa using hp)]
        rw [List.find?_eq_none]
        intro x hx hbeq
        have : x.1 = k := by simpa using hbeq
        exact hnd.1 (by
          rw [hp, ← this]
          exact List.mem_map_of_mem Prod.fst hx)
      · rw [List.eraseP_cons_of_neg (by simpa using hp)]
        rw [List.find?_cons_of_neg _ (by simpa using hp)]
        exact ih hnd.2

theorem fieldLe_trans : ∀ a b c : String × JValue,
    fieldLe a b = true → fieldLe b c = true → fieldLe a c = true := by
  intro a b c hab hbc
  simp only [fieldLe, decide_eq_true_eq] at *
  exact le_trans hab hbc

theorem fieldLe_total : ∀ a b : String × JValue,
    (fieldLe a b || fieldLe b a) = true := by
  intro a b
  simp only [fieldLe, Bool.or_eq_true, decide_eq_true_eq]
  exact le_total a.1 b.1

theorem sortFields_sorted (l : List (String × JValue)) :
    List.Pairwise (fun a b => fieldLe a b = true) (sortFields l) :=
  List.sorted_mergeSort fieldLe_trans fieldLe_total l

theorem sortFields_strict (l : List (String × JValue))
    (hnd : (l.map Prod.fst).Nodup) :
    List.Pairwise (fun a b : String × JValue => a.1 < b.1) (sortFields l) := by
  have hs := sortFields_sorted l
  have hperm : (sortFields l).Perm l := List.mergeSort_perm l fieldLe
  have hnd' : ((sortFields l).map Prod.fst).Nodup :=
    ((hperm.map Prod.fst).nodup_iff).mpr hnd
  have hne : List.Pairwise (fun a b : String × JValue => a.1 ≠ b.1)
      (sortFields l) := (List.pairwise_map).mp hnd'
  exact (hs.and hne).imp
    (fun h => lt_of_le_of_ne (by simpa [fieldLe] using h.1) h.2)

theorem sortFields_perm_eq (l1 l2 : List (String × JValue)) (hp : l1.Perm l2)
    (hnd : (l1.map Prod.fst).Nodup) : sortFields l1 = sortFields l2 := by
  have hnd2 : (l2.map Prod.fst).Nodup := ((hp.map Prod.fst).nodup_iff).mp hnd
  have h1 := sortFields_strict l1 hnd
  have h2 := sortFields_strict l2 hnd2
  have hp' : (sortFields l1).Perm (sortFields l2) :=
    (List.mergeSort_perm l1 fieldLe).trans
      (hp.trans (List.mergeSort_perm l2 fieldLe).symm)
  haveI : IsAntisymm (String × JValue) (fun a b => a.1 < b.1) :=
    ⟨fun a b hab hba => absurd (lt_trans hab hba) (lt_irrefl _)⟩
  exact List.eq_of_perm_of_sorted hp' h1 h2

theorem dumps_obj_congr (l1 l2 : List (String × JValue))
    (h : sortFields l1 = sortFields l2) :
    dumps (JValue.obj l1) = dumps (JValue.obj l2) := by
  rw [dumps, dumps]
  exact congrArg (fun m : List (String × JValue) =>
    "\x7b" ++ joinComma (m.attach.map
      (fun x => jstr x.1.1 ++ ": " ++ dumps x.1.2)) ++ "\x7d") h

theorem cache_key_obj_perm_aux (md5 : String → String) (q : String)
    (l1 l2 : List (String × JValue)) (hp : l1.Perm l2)
    (hnd : (l1.map Prod.fst).Nodup) :
    cache_key md5 q (some (JValue.obj l1)) =
      cache_key md5 q (some (JValue.obj l2)) := by
  have hd := dumps_obj_congr l1 l2 (sortFields_perm_eq l1 l2 hp hnd)
  have htr : jtruthy (JValue.obj l1) = jtruthy (JValue.obj l2) := by
    simp only [jtruthy]
    rw [hp.isEmpty_eq]
  simp only [cache_key, params_str, htr, hd]

theorem expiryLe_trans : ∀ a b c : String × CacheEntry β,
    (decide (a.2.expires_at ≤ b.2.expires_at)) = true →
    (decide (b.2.expires_at ≤ c.2.expires_at)) = true →
    (decide (a.2.expires_at ≤ c.2.expires_at)) = true := by
  intro a b c hab hbc
  simp only [decide_eq_true_eq] at *
  omega

theorem expiryLe_total : ∀ a b : String × CacheEntry β,
    ((decide (a.2.expires_at ≤ b.2.expires_at)) ||
      (decide (b.2.expires_at ≤ a.2.expires_at))) = true := by
  intro a b
  simp only [Bool.or_eq_true, decide_eq_true_eq]
  omega

theorem sortByExpiry_sorted (store : Store β) :
    List.Pairwise (fun a b => a.2.expires_at ≤ b.2.expires_at)
      (sortByExpiry store) :=
  (List.sorted_mergeSort expiryLe_trans expiryLe_total store).imp
    (fun h => by simpa using h)

theorem sortByExpiry_perm (store : Store β) : (sortByExpiry store).Perm store :=
  List.mergeSort_perm store _

/-- Keys of the kept suffix are disjoint from the keys scheduled for
removal, provided the dict's keys are distinct. -/
theorem drop_keys_not_removed (store : Store β)
    (hnd : (store.map Prod.fst).Nodup) :
    ∀ q ∈ (sortByExpiry store).drop CLEAN_COUNT,
      q.1 ∉ (itemsToRemove store).map Prod.fst := by
  intro q hq hmem
  have hnds : ((sortByExpiry store).map Prod.fst).Nodup :=
    (((sortByExpiry_perm store).map Prod.fst).nodup_iff).mpr hnd
  have hsplit : (sortByExpiry store).map Prod.fst =
      ((sortByExpiry store).take CLEAN_COUNT).map Prod.fst ++
        ((sortByExpiry store).drop CLEAN_COUNT).map Prod.fst := by
    rw [← List.map_append, List.take_append_drop]
  rw [hsplit] at hnds
  have hdisj := (List.nodup_append.mp hnds).2.2
  exact hdisj hmem (List.mem_map_of_mem Prod.fst hq)

theorem evictOld_perm_drop (store : Store β)
    (hnd : (store.map Prod.fst).Nodup) :
    (evictOld store).Perm ((sortByExpiry store).drop CLEAN_COUNT) := by
  have hperm : (evictOld store).Perm
      ((sortByExpiry store).filter
        (fun p => decide (p.1 ∉ (itemsToRemove store).map Prod.fst))) :=
    List.Perm.filter _ (sortByExpiry_perm store).symm
  have hsplit : sortByExpiry store =
      (sortByExpiry store).take CLEAN_COUNT ++
        (sortByExpiry store).drop CLEAN_COUNT :=
    (List.take_append_drop _ _).symm
  rw [hsplit, List.filter_append] at hperm
  have h1 : ((sortByExpiry store).take CLEAN_COUNT).filter
      (fun p => decide (p.1 ∉ (itemsToRemove store).map Prod.fst)) = [] := by
    rw [List.filter_eq_nil_iff]
    intro a ha
    simp only [decide_eq_true_eq, not_not]
    exact List.mem_map_of_mem Prod.fst ha
  have h2 : ((sortByExpiry store).drop CLEAN_COUNT).filter
      (fun p => decide (p.1 ∉ (itemsToRemove store).map Prod.fst)) =
      (sortByExpiry store).drop CLEAN_COUNT := by
    rw [List.filter_eq_self]
    intro a ha
    simpa using drop_keys_not_removed store hnd a ha
  rw [h1, h2] at hperm
  simpa using hperm

theorem evictOld_length (store : Store β)
    (hnd : (store.map Prod.fst).Nodup) :
    (evictOld store).length = store.length - CLEAN_COUNT := by
  rw [(evictOld_perm_drop store hnd).length_eq, List.length_drop,
    (sortByExpiry_perm store).length_eq]

/-- Every removed item expires no later than every kept item. -/
theorem evictOld_min (store : Store β) (hnd : (store.map Prod.fst).Nodup) :
    ∀ p ∈ store, p ∉ evictOld store → ∀ q ∈ evictOld store,
      p.2.expires_at ≤ q.2.expires_at := by
  intro p hp hpdrop q hq
  have hqd : q ∈ (sortByExpiry store).drop CLEAN_COUNT :=
    (evictOld_perm_drop store hnd).mem_iff.mp hq
  have hps : p ∈ (sortByExpiry store) := (sortByExpiry_perm store).mem_iff.mpr hp
  rw [← List.take_append_drop CLEAN_COUNT (sortByExpiry store),
    List.mem_append] at hps
  rcases hps with hpt | hpd
  · have hpair := sortByExpiry_sorted store
    rw [← List.take_append_drop CLEAN_COUNT (sortByExpiry store),
      List.pairwise_append] at hpair
    exact hpair.2.2 p hpt q hqd
  · exact absurd ((evictOld_perm_drop store hnd).mem_iff.mpr hpd) hpdrop

theorem evictOld_nodup_keys (store : Store β)
    (hnd : (store.map Prod.fst).Nodup) :
    ((evictOld store).map Prod.fst).Nodup :=
  ((List.filter_sublist store).map Prod.fst).nodup hnd

theorem set_in_cache_nodup_keys (now : Nat) (store : Store β) (key : String)
    (d : Option β) (ttl : Nat) (hnd : (store.map Prod.fst).Nodup) :
    (((set_in_cache now store key d ttl).2).map Prod.fst).Nodup := by
  unfold set_in_cache
  by_cases h : MAX_CACHE_SIZE ≤ store.length
  · simpa [h] using dictSet_nodup_keys key _ (evictOld_nodup_keys store hnd)
  · simpa [h] using dictSet_nodup_keys key _ hnd

theorem set_in_cache_length_le (now : Nat) (store : Store β) (key : String)
    (d : Option β) (ttl : Nat) (hnd : (store.map Prod.fst).Nodup)
    (hlen : store.length ≤ MAX_CACHE_SIZE) :
    ((set_in_cache now store key d ttl).2).length ≤ MAX_CACHE_SIZE := by
  unfold set_in_cache
  by_cases h : MAX_CACHE_SIZE ≤ store.length
  · have h1 := evictOld_length store hnd
    have h2 := dictSet_length_le (evictOld store) key
      ⟨d, now + ttl, now⟩
    simp only [h, if_true]
    have : CLEAN_COUNT = 100 := by norm_num [CLEAN_COUNT, MAX_CACHE_SIZE]
    simp only [MAX_CACHE_SIZE] at *
    omega
  · have h2 := dictSet_length_le store key ⟨d, now + ttl, now⟩
    simp only [h, if_false]
    omega

/-- One step of a sequence of insertions (arguments in the order
`(now, key, data, ttl)`). -/
def setStep (st : Store β) (op : Nat × String × Option β × Nat) : Store β :=
  (set_in_cache op.1 st op.2.1 op.2.2.1 op.2.2.2).2

/-- Running any sequence of `set_in_cache` calls against the initially
empty dict. -/
def insertSeq (ops : List (Nat × String × Option β × Nat)) : Store β :=
  ops.foldl setStep []

theorem insertSeq_inv (ops : List (Nat × String × Option β × Nat)) :
    ∀ st : Store β, (st.map Prod.fst).Nodup → st.length ≤ MAX_CACHE_SIZE →
      ((ops.foldl setStep st).map Prod.fst).Nodup ∧
        (ops.foldl setStep st).length ≤ MAX_CACHE_SIZE := by
  induction ops with
  | nil => intro st h1 h2; exact ⟨h1, h2⟩
  | cons op rest ih =>
      intro st h1 h2
      exact ih (setStep st op)
        (set_in_cache_nodup_keys op.1 st op.2.1 op.2.2.1 op.2.2.2 h1)
        (set_in_cache_length_le op.1 st op.2.1 op.2.2.1 op.2.2.2 h1 h2)

theorem insertSeq_length_le (ops : List (Nat × String × Option β × Nat)) :
    (insertSeq ops).length ≤ MAX_CACHE_SIZE :=
  (insertSeq_inv ops [] (by simp) (by simp [MAX_CACHE_SIZE])).2

/-! ### Claims -/

/-- C8: with `bypass_cache = true`, `cached_query` invokes the underlying
query function on every call — even when a live identical cached entry
exists — returns its result unmodified (including a failure), and leaves the
store completely unchanged: no cache read, write, expiry purge, or eviction
happens. -/
theorem C8_bypass_executes_and_never_mutates (md5 : String → String)
    (ttl : Nat) (func : String → Option JValue → Except ε (Option β))
    (now : Nat) (q : String) (p : Option JValue) (store : Store β) :
    cached_query md5 ttl func now q p true store = (func q p, store) := rfl

/-- C10: reading a present, non-expired entry leaves the store completely
unchanged — the entry's `expires_at` and `created_at` are not updated and no
other entry is touched, so repeated reads never extend an entry's lifetime
or change which entries eviction would remove. -/
theorem C10_live_get_frame (now : Nat) (store : Store β) (key : String)
    (pr : String × CacheEntry β)
    (hfind : store.find? (fun x => x.1 == key) = some pr)
    (hlive : now < pr.2.expires_at) :
    get_from_cache now store key = (pr.2.data, store) := by
  obtain ⟨k', e⟩ := pr
  simp only [get_from_cache, hfind]
  simp [hlive]

/-- Witness for C10 at a concrete store. -/
theorem C10_witness :
    ([(("k" : String), (⟨some 0, 5, 0⟩ : CacheEntry Nat))].find?
        (fun x => x.1 == "k") = some ("k", ⟨some 0, 5, 0⟩)) ∧
    (0 : Nat) < 5 ∧
    get_from_cache 0 [(("k" : String), (⟨some 0, 5, 0⟩ : CacheEntry Nat))] "k" =
      (some 0, [("k", ⟨some 0, 5, 0⟩)]) :=
  ⟨rfl, by decide,
    C10_live_get_frame 0 _ "k" ("k", ⟨some 0, 5, 0⟩) rfl (by decide)⟩

/-- C9: round trip — after `set(k, d, ttl)` at time `nowSet`, a `get(k)` at
any time strictly before `nowSet + ttl` returns exactly the stored data `d`
(`d` of any shape, a Python `None` payload included). -/
theorem C9_round_trip (nowSet nowGet ttl : Nat) (store : Store β)
    (k : String) (d : Option β) (_hpos : 0 < ttl)
    (hlive : nowGet < nowSet + ttl) :
    (get_from_cache nowGet ((set_in_cache nowSet store k d ttl).2) k).1 = d := by
  simp [set_in_cache, get_from_cache, find?_dictSet, hlive]

/-- Witness for C9 at a concrete store. -/
theorem C9_witness :
    (0 : Nat) < 60 ∧ (1 : Nat) < 0 + 60 ∧
    (get_from_cache 1 ((set_in_cache 0 ([] : Store Nat) "k" (some 5) 60).2)
        "k").1 = some 5 :=
  ⟨by decide, by decide, C9_round_trip 0 1 60 [] "k" (some 5) (by decide)
    (by decide)⟩

/-- C6: a `get` on a key whose entry satisfies `expires_at <= now` returns
absent, removes exactly that entry (the store shrinks by one), and a
repeated `get` on that key still returns absent — an expired entry is never
returned. -/
theorem C6_expired_get_purges (now : Nat) (store : Store β) (key : String)
    (pr : String × CacheEntry β) (hnd : (store.map Prod.fst).Nodup)
    (hfind : store.find? (fun x => x.1 == key) = some pr)
    (hexp : pr.2.expires_at ≤ now) :
    get_from_cache now store key =
      (none, store.eraseP (fun x => x.1 == key)) ∧
    (store.eraseP (fun x => x.1 == key)).length + 1 = store.length ∧
    (get_from_cache now (store.eraseP (fun x => x.1 == key)) key).1 = none := by
  obtain ⟨k', e⟩ := pr
  have hmem := List.mem_of_find?_eq_some hfind
  have hp := List.find?_some hfind
  refine ⟨?_, ?_, ?_⟩
  · simp only [get_from_cache, hfind]
    simp [Nat.not_lt.mpr hexp]
  · have hlen : (store.eraseP (fun x => x.1 == key)).length =
        store.length - 1 := List.length_eraseP_of_mem hmem hp
    have hpos2 : 0 < store.length := List.length_pos_of_mem hmem
    omega
  · simp [get_from_cache, find?_eraseP_key_none store key hnd]

/-- Witness for C6 at a concrete store. -/
theorem C6_witness :
    (([(("k" : String), (⟨some 0, 5, 0⟩ : CacheEntry Nat))].map
        Prod.fst).Nodup) ∧
    ([(("k" : String), (⟨some 0, 5, 0⟩ : CacheEntry Nat))].find?
        (fun x => x.1 == "k") = some ("k", ⟨some 0, 5, 0⟩)) ∧
    (5 : Nat) ≤ 5 ∧
    get_from_cache 5 [(("k" : String), (⟨some 0, 5, 0⟩ : CacheEntry Nat))] "k" =
      (none, []) :=
  ⟨by decide, rfl, by decide, by
    have h := C6_expired_get_purges 5
      [(("k" : String), (⟨some 0, 5, 0⟩ : CacheEntry Nat))] "k"
      ("k", ⟨some 0, 5, 0⟩) (by decide) rfl (by decide)
    simpa using h.1⟩

/-- C2: the ttl is an explicit argument of the cache wrapper (the
decoration-time argument of `cached_query`, modelled per the spec as an
explicit parameter): on a miss the stored entry expires at `now + ttl` for
every override, and the default when not overridden is `DEFAULT_TTL = 60`
seconds. -/
theorem C2_ttl_controls_expiry (md5 : String → String) (ttl : Nat)
    (func : String → Option JValue → Except ε (Option β)) (now : Nat)
    (q : String) (p : Option JValue) (store : Store β) (result : Option β)
    (hmiss : (get_from_cache now store (cache_key md5 q p)).1 = none)
    (hok : func q p = Except.ok result) :
    DEFAULT_TTL = 60 ∧
    (cached_query md5 ttl func now q p false store).1 = Except.ok result ∧
    ((cached_query md5 ttl func now q p false store).2).find?
        (fun x => x.1 == cache_key md5 q p) =
      some (cache_key md5 q p, ⟨result, now + ttl, now⟩) := by
  rcases hg : get_from_cache now store (cache_key md5 q p) with ⟨r, store1⟩
  have hr : r = none := by rw [hg] at hmiss; exact hmiss
  subst hr
  refine ⟨rfl, ?_, ?_⟩
  · simp [cached_query, hg, hok]
  · simp [cached_query, hg, hok, set_in_cache, find?_dictSet]

/-- An underlying query function that always succeeds with `some 7`, used
by concrete instantiations. -/
def okFunc7 : String → Option JValue → Except String (Option Nat) :=
  fun _ _ => Except.ok (some 7)

/-- An underlying query function that always fails, used by concrete
instantiations. -/
def failFunc : String → Option JValue → Except String (Option Nat) :=
  fun _ _ => Except.error "boom"

/-- Witness for C2: an overridden ttl of 30 at a concrete miss. -/
theorem C2_witness :
    ((get_from_cache 3 ([] : Store Nat)
        (cache_key id "q" none)).1 = none) ∧
    (okFunc7 "q" none = Except.ok (some 7)) ∧
    ((cached_query id 30 okFunc7 3 "q" none false ([] : Store Nat)).2).find?
        (fun x => x.1 == cache_key id "q" none) =
      some (cache_key id "q" none, ⟨some 7, 3 + 30, 3⟩) :=
  ⟨rfl, rfl,
    (C2_ttl_controls_expiry id 30 okFunc7 3 "q" none [] (some 7) rfl
      rfl).2.2⟩

/-- C1 counterexample: a failed execution can still change the store.  With
an already-expired entry at the queried key, the lookup purges it before the
underlying function runs; the function then fails, the failure propagates,
but the store is no longer "exactly what it was before the call". -/
theorem C1_counterexample :
    (cached_query id 60 failFunc 10 "q" none false
        [(("q:None" : String), (⟨some 1, 5, 0⟩ : CacheEntry Nat))]).1 =
      Except.error "boom" ∧
    (cached_query id 60 failFunc 10 "q" none false
        [(("q:None" : String), (⟨some 1, 5, 0⟩ : CacheEntry Nat))]).2 ≠
      [(("q:None" : String), (⟨some 1, 5, 0⟩ : CacheEntry Nat))] := by
  constructor
  · rfl
  · intro h
    have h2 : ([] : Store Nat) =
        [(("q:None" : String), (⟨some 1, 5, 0⟩ : CacheEntry Nat))] := h
    exact List.noConfusion h2

/-- C1 (amended): if the lookup does not produce a live value and the
underlying query function fails, `cached_query` propagates exactly that
failure, stores nothing (the final store is the post-lookup store, with no
entry written for the key), a subsequent `get` on that key is absent, and
the store is unchanged except that an already-expired entry at the key may
have been purged by the lookup. -/
theorem C1_failure_not_memoized (md5 : String → String) (ttl : Nat)
    (func : String → Option JValue → Except ε (Option β)) (now : Nat)
    (q : String) (p : Option JValue) (store : Store β) (e : ε)
    (hnd : (store.map Prod.fst).Nodup)
    (hfail : func q p = Except.error e)
    (hmiss : (get_from_cache now store (cache_key md5 q p)).1 = none) :
    cached_query md5 ttl func now q p false store =
      (Except.error e, (get_from_cache now store (cache_key md5 q p)).2) ∧
    (get_from_cache now ((cached_query md5 ttl func now q p false store).2)
        (cache_key md5 q p)).1 = none ∧
    ((cached_query md5 ttl func now q p false store).2 = store ∨
      (cached_query md5 ttl func now q p false store).2 =
        store.eraseP (fun x => x.1 == cache_key md5 q p)) := by
  rcases hfind : store.find? (fun x => x.1 == cache_key md5 q p) with _ | pr
  · have hg : get_from_cache now store (cache_key md5 q p) = (none, store) := by
      simp [get_from_cache, hfind]
    refine ⟨by simp [cached_query, hg, hfail], ?_, Or.inl ?_⟩
    · simp [cached_query, hg, hfail, get_from_cache, hfind]
    · simp [cached_query, hg, hfail]
  · obtain ⟨k', e'⟩ := pr
    by_cases hlt : now < e'.expires_at
    · have hg0 : get_from_cache now store (cache_key md5 q p) =
          (e'.data, store) := by
        simp only [get_from_cache, hfind]
        simp [hlt]
      have hdata : e'.data = none := by rw [hg0] at hmiss; exact hmiss
      have hg : get_from_cache now store (cache_key md5 q p) =
          (none, store) := by rw [hg0, hdata]
      refine ⟨by simp [cached_query, hg, hfail], ?_,
        Or.inl (by simp [cached_query, hg, hfail])⟩
      have h1 : (cached_query md5 ttl func now q p false store).2 = store := by
        simp [cached_query, hg, hfail]
      rw [h1, hg]
    · have hg : get_from_cache now store (cache_key md5 q p) =
          (none, store.eraseP (fun x => x.1 == cache_key md5 q p)) := by
        simp only [get_from_cache, hfind]
        simp [hlt]
      refine ⟨by simp [cached_query, hg, hfail], ?_, Or.inr ?_⟩
      · have h1 : (cached_query md5 ttl func now q p false store).2 =
            store.eraseP (fun x => x.1 == cache_key md5 q p) := by
          simp [cached_query, hg, hfail]
        rw [h1]
        simp [get_from_cache, find?_eraseP_key_none store _ hnd]
      · simp [cached_query, hg, hfail]

/-- Witness for C1 (amended) at a concrete store. -/
theorem C1_witness :
    (([(("q:None" : String), (⟨some 1, 5, 0⟩ : CacheEntry Nat))].map
        Prod.fst).Nodup) ∧
    (failFunc "q" none = Except.error "boom") ∧
    ((get_from_cache 10
        [(("q:None" : String), (⟨some 1, 5, 0⟩ : CacheEntry Nat))]
        (cache_key id "q" none)).1 = none) ∧
    cached_query id 60 failFunc 10 "q" none false
        [(("q:None" : String), (⟨some 1, 5, 0⟩ : CacheEntry Nat))] =
      (Except.error "boom",
        (get_from_cache 10
          [(("q:None" : String), (⟨some 1, 5, 0⟩ : CacheEntry Nat))]
          (cache_key id "q" none)).2) :=
  ⟨by decide, rfl, rfl,
    (C1_failure_not_memoized id 60 failFunc 10 "q" none
      [(("q:None" : String), (⟨some 1, 5, 0⟩ : CacheEntry Nat))] "boom"
      (by decide) rfl rfl).1⟩

/-- C3 counterexample: the sentinel does not disambiguate the no-params case
from the empty-collection case — because `if params:` is Python truthiness,
an empty mapping and an empty sequence also serialize to the sentinel, so
all three inputs produce the same key. -/
theorem C3_counterexample :
    cache_key id "q" (some (JValue.obj [])) = cache_key id "q" none ∧
    cache_key id "q" (some (JValue.arr [])) = cache_key id "q" none :=
  ⟨rfl, rfl⟩

/-- C3 (amended): with absent params `cache_key` uses the fixed sentinel
literal `"None"` in place of the serialization; an empty mapping and an
empty sequence are falsy in Python, so they use the very same sentinel, and
all three inputs yield the same key for every query text. -/
theorem C3_sentinel_shared (md5 : String → String) (q : String) :
    params_str none = "None" ∧
    cache_key md5 q (some (JValue.obj [])) = cache_key md5 q none ∧
    cache_key md5 q (some (JValue.arr [])) = cache_key md5 q none :=
  ⟨rfl, rfl, rfl⟩

/-- C5 counterexample: a live cached entry whose stored payload is Python
`None` is not replayed — `cached_query` re-invokes the underlying function
(the result differs from the stored value) and overwrites the store. -/
theorem C5_counterexample :
    (cached_query id 60 okFunc7 5 "q" none false
        [(("q:None" : String), (⟨none, 10, 0⟩ : CacheEntry Nat))]).1 ≠
      Except.ok (none : Option Nat) ∧
    (cached_query id 60 okFunc7 5 "q" none false
        [(("q:None" : String), (⟨none, 10, 0⟩ : CacheEntry Nat))]).2 ≠
      [(("q:None" : String), (⟨none, 10, 0⟩ : CacheEntry Nat))] := by
  constructor
  · intro h
    have h2 : (Except.ok (some 7) : Except String (Option Nat)) =
        Except.ok none := h
    simp at h2
  · intro h
    have h2 : [(("q:None" : String), (⟨some 7, 65, 5⟩ : CacheEntry Nat))] =
        [(("q:None" : String), (⟨none, 10, 0⟩ : CacheEntry Nat))] := h
    simp at h2

/-- C5 (amended): when `bypass_cache` is false and a live entry exists for
the computed key whose stored value is not Python `None`, `cached_query`
returns exactly that stored value and leaves the store unchanged, whatever
underlying function is supplied — so the function is not invoked.  (A stored
`None` is indistinguishable from a miss and is re-executed.) -/
theorem C5_live_hit_replayed (md5 : String → String) (ttl : Nat) (now : Nat)
    (q : String) (p : Option JValue) (store : Store β)
    (pr : String × CacheEntry β) (v : β)
    (hfind : store.find? (fun x => x.1 == cache_key md5 q p) = some pr)
    (hlive : now < pr.2.expires_at) (hdata : pr.2.data = some v) :
    ∀ func : String → Option JValue → Except ε (Option β),
      cached_query md5 ttl func now q p false store =
        (Except.ok (some v), store) := by
  intro func
  obtain ⟨k', e'⟩ := pr
  have hg : get_from_cache now store (cache_key md5 q p) =
      (some v, store) := by
    simp only [get_from_cache, hfind]
    rw [if_pos hlive, hdata]
  simp [cached_query, hg]

/-- Witness for C5 (amended): the stored value is replayed even against an
always-failing underlying function. -/
theorem C5_witness :
    ([(("q:None" : String), (⟨some 3, 10, 0⟩ : CacheEntry Nat))].find?
        (fun x => x.1 == cache_key id "q" none) =
      some ("q:None", ⟨some 3, 10, 0⟩)) ∧
    (5 : Nat) < 10 ∧
    cached_query id 60 failFunc 5 "q" none false
        [(("q:None" : String), (⟨some 3, 10, 0⟩ : CacheEntry Nat))] =
      (Except.ok (some 3),
        [(("q:None" : String), (⟨some 3, 10, 0⟩ : CacheEntry Nat))]) :=
  ⟨rfl, by decide,
    C5_live_hit_replayed id 60 5 "q" none
      [(("q:None" : String), (⟨some 3, 10, 0⟩ : CacheEntry Nat))]
      ("q:None", ⟨some 3, 10, 0⟩) 3 rfl (by decide) rfl failFunc⟩

/-- C7: `cache_key` is pure and deterministic (repeated calls agree); for a
mapping-type parameter set with distinct keys the cache key is invariant to
the insertion order of its fields; and, provided the digest function is
injective (the spec's collision-resistance reading), two parameter payloads
whose canonical serializations differ yield different cache keys. -/
theorem C7_key_pure_deterministic (md5 : String → String) (q : String) :
    (∀ p : Option JValue, cache_key md5 q p = cache_key md5 q p) ∧
    (∀ l1 l2 : List (String × JValue), l1.Perm l2 →
      (l1.map Prod.fst).Nodup →
      cache_key md5 q (some (JValue.obj l1)) =
        cache_key md5 q (some (JValue.obj l2))) ∧
    (Function.Injective md5 → ∀ p1 p2 : Option JValue,
      params_str p1 ≠ params_str p2 →
      cache_key md5 q p1 ≠ cache_key md5 q p2) := by
  refine ⟨fun _ => rfl, ?_, ?_⟩
  · exact fun l1 l2 hp hnd => cache_key_obj_perm_aux md5 q l1 l2 hp hnd
  · intro hinj p1 p2 hne hcontra
    exact hne (string_append_cancel_left (hinj hcontra))

/-- Witness for C7: the identity digest, a two-field mapping in both
insertion orders, and two parameter payloads with distinct serializations. -/
theorem C7_witness :
    ([(("b" : String), JValue.num 2), ("a", JValue.num 1)].Perm
        [(("a" : String), JValue.num 1), ("b", JValue.num 2)]) ∧
    (([(("b" : String), JValue.num 2), ("a", JValue.num 1)].map
        Prod.fst).Nodup) ∧
    Function.Injective (id : String → String) ∧
    params_str none ≠ params_str (some (JValue.bool true)) ∧
    cache_key id "q" (some (JValue.obj
        [(("b" : String), JValue.num 2), ("a", JValue.num 1)])) =
      cache_key id "q" (some (JValue.obj
        [(("a" : String), JValue.num 1), ("b", JValue.num 2)])) ∧
    cache_key id "q" none ≠ cache_key id "q" (some (JValue.bool true)) := by
  have hperm : [(("b" : String), JValue.num 2), ("a", JValue.num 1)].Perm
      [(("a" : String), JValue.num 1), ("b", JValue.num 2)] :=
    List.Perm.swap ("a", JValue.num 1) ("b", JValue.num 2) []
  have hnd : ([(("b" : String), JValue.num 2), ("a", JValue.num 1)].map
      Prod.fst).Nodup := by decide
  have hps : params_str (some (JValue.bool true)) = "true" := by
    simp [params_str, jtruthy, dumps]
  have hne : params_str none ≠ params_str (some (JValue.bool true)) := by
    rw [hps]
    decide
  exact ⟨hperm, hnd, Function.injective_id, hne,
    (C7_key_pure_deterministic id "q").2.1 _ _ hperm hnd,
    (C7_key_pure_deterministic id "q").2.2 Function.injective_id _ _ hne⟩

/-- C4: `set_in_cache` always reports success; when the store holds at least
`MAX_CACHE_SIZE` entries it first evicts exactly
`CLEAN_COUNT = MAX_CACHE_SIZE / 10 = int(MAX_CACHE_SIZE * 0.1)` entries —
precisely a set of entries whose `expires_at` is minimal among the
pre-eviction entries — before inserting; and any sequence of insertions
starting from the empty store (in particular `MAX_CACHE_SIZE + 1` distinct
keys in a row) never leaves more than `MAX_CACHE_SIZE` entries. -/
theorem C4_capacity_and_eviction (now : Nat) (store : Store β) (key : String)
    (d : Option β) (ttl : Nat) (hnd : (store.map Prod.fst).Nodup) :
    (set_in_cache now store key d ttl).1 = true ∧
    (MAX_CACHE_SIZE ≤ store.length →
      (set_in_cache now store key d ttl).2 =
        dictSet (evictOld store) key ⟨d, now + ttl, now⟩ ∧
      (evictOld store).length + CLEAN_COUNT = store.length ∧
      (∀ p ∈ store, p ∉ evictOld store → ∀ q ∈ evictOld store,
        p.2.expires_at ≤ q.2.expires_at)) ∧
    (∀ ops : List (Nat × String × Option β × Nat),
      (insertSeq ops).length ≤ MAX_CACHE_SIZE) := by
  refine ⟨rfl, fun hfull => ⟨?_, ?_, evictOld_min store hnd⟩,
    insertSeq_length_le⟩
  · simp [set_in_cache, hfull]
  · have h1 := evictOld_length store hnd
    have h2 : CLEAN_COUNT ≤ store.length := by
      have : CLEAN_COUNT = 100 := by norm_num [CLEAN_COUNT, MAX_CACHE_SIZE]
      simp only [MAX_CACHE_SIZE] at hfull
      omega
    omega

/-- A distinct key for each index below `MAX_CACHE_SIZE`. -/
def bigKey (i : Nat) : String := String.mk (List.replicate i 'k')

/-- A concrete store filled to exactly `MAX_CACHE_SIZE` entries with
distinct keys and strictly increasing expiry. -/
def bigStore : Store Nat :=
  (List.range MAX_CACHE_SIZE).map (fun i => (bigKey i, ⟨some i, i + 1, 0⟩))

theorem bigKey_injective : Function.Injective bigKey := by
  intro i j h
  have h2 : (List.replicate i 'k').length = (List.replicate j 'k').length :=
    congrArg (fun s : String => s.data.length) h
  simpa using h2

theorem bigStore_nodup : (bigStore.map Prod.fst).Nodup := by
  unfold bigStore
  rw [List.map_map]
  exact List.Nodup.map (fun i j h => bigKey_injective h) (List.nodup_range _)

theorem bigStore_length : bigStore.length = MAX_CACHE_SIZE := by
  simp [bigStore]

/-- Witness for C4 at a full concrete store: the insert reports success and
the eviction removes exactly `CLEAN_COUNT` of the 1000 entries. -/
theorem C4_witness :
    (bigStore.map Prod.fst).Nodup ∧
    MAX_CACHE_SIZE ≤ bigStore.length ∧
    (set_in_cache 0 bigStore "x" (some 0) 1).1 = true ∧
    (evictOld bigStore).length + CLEAN_COUNT = bigStore.length :=
  ⟨bigStore_nodup, le_of_eq bigStore_length.symm,
    (C4_capacity_and_eviction 0 bigStore "x" (some 0) 1 bigStore_nodup).1,
    ((C4_capacity_and_eviction 0 bigStore "x" (some 0) 1 bigStore_nodup).2.1
      (le_of_eq bigStore_length.symm)).2.1⟩

end DbCache
